import Mathlib

/-!
# Verification of the `entity` metadata compiler and payload engine

This file contains a shallow embedding, in Lean, of the core of the
`navaz-alani/entity` Go library: the field classifier (`classifyFields`,
`classifyHandleTags` in `multiplexer/metaEntity.go`), the registry builder
(`Create` and `link` in `multiplexer/multiplexer.go`), the recursive payload
decoder (`processCreation` in `multiplexer/multiplexer.go`), the scalar field
writer (`eField.WriteToField`), the field-name resolver
(`eField.NameByPriority` in `eField/fieldName.go`) and the axis filter
(`entity.Filter`), together with theorems about their behaviour.

Go's reflection universe is modelled by a small closed type universe
(`GoType`), Go dynamic values (`interface\x7b\x7d`) by `GoVal`, struct tags by
association lists, and Go maps by association lists with first-match lookup.
Panics recovered by the library are modelled as explicit error results.
-/

set_option maxHeartbeats 1000000

namespace EntityRepo

/-- First-match lookup in an association list; models lookup in a Go map
whose entries were inserted with distinct keys (a missing key yields `none`,
like Go's zero value). -/
def alookup {α β : Type} [DecidableEq α] : List (α × β) → α → Option β
  | [], _ => none
  | (a, b) :: t, k => if a = k then some b else alookup t k

@[simp] theorem alookup_nil {α β : Type} [DecidableEq α] (k : α) :
    alookup ([] : List (α × β)) k = none := rfl

@[simp] theorem alookup_cons {α β : Type} [DecidableEq α] (a : α) (b : β)
    (t : List (α × β)) (k : α) :
    alookup ((a, b) :: t) k = if a = k then some b else alookup t k := rfl

theorem alookup_append {α β : Type} [DecidableEq α] (l₁ l₂ : List (α × β)) (k : α) :
    alookup (l₁ ++ l₂) k =
      match alookup l₁ k with
      | some b => some b
      | none => alookup l₂ k := by
  induction l₁ with
  | nil => simp
  | cons hd tl ih =>
    obtain ⟨a, b⟩ := hd
    by_cases h : a = k <;> simp [alookup, h, ih]

mutual
/-- The Go types appearing in entity definitions: a closed universe standing
for `reflect.Type`.  `objectID` stands for `primitive.ObjectID` (an array
kind in Go, so it falls in the `default` branch of kind switches). -/
inductive GoType : Type where
  | string : GoType
  | int64 : GoType
  | float64 : GoType
  | bool : GoType
  | objectID : GoType
  | ptr (elem : GoType) : GoType
  | slice (elem : GoType) : GoType
  | struct (name : String) (fields : List StructField) : GoType

/-- A struct field: name, type and its tag set (`reflect.StructField` with
`Tag.Get` modelled by association-list lookup). -/
inductive StructField : Type where
  | mk (name : String) (type : GoType) (tags : List (String × String)) : StructField
end

mutual
/-- Structural (boolean) equality on `GoType`; `reflect.Type` identity in Go
is structural identity of the type. -/
def GoType.beq : GoType → GoType → Bool
  | .string, .string => true
  | .int64, .int64 => true
  | .float64, .float64 => true
  | .bool, .bool => true
  | .objectID, .objectID => true
  | .ptr a, .ptr b => a.beq b
  | .slice a, .slice b => a.beq b
  | .struct n₁ fs₁, .struct n₂ fs₂ => n₁ == n₂ && beqFieldList fs₁ fs₂
  | _, _ => false

/-- Boolean equality on `StructField`. -/
def StructField.beq : StructField → StructField → Bool
  | .mk n₁ t₁ g₁, .mk n₂ t₂ g₂ => n₁ == n₂ && t₁.beq t₂ && g₁ == g₂

/-- Boolean equality on lists of struct fields. -/
def beqFieldList : List StructField → List StructField → Bool
  | [], [] => true
  | f :: fs, g :: gs => f.beq g && beqFieldList fs gs
  | _, _ => false
end

mutual
theorem goType_eq_of_beq : ∀ {a b : GoType}, a.beq b = true → a = b
  | .string, .string, _ => rfl
  | .int64, .int64, _ => rfl
  | .float64, .float64, _ => rfl
  | .bool, .bool, _ => rfl
  | .objectID, .objectID, _ => rfl
  | .ptr a, .ptr b, h => by
      rw [goType_eq_of_beq (a := a) (b := b) (by simpa [GoType.beq] using h)]
  | .slice a, .slice b, h => by
      rw [goType_eq_of_beq (a := a) (b := b) (by simpa [GoType.beq] using h)]
  | .struct n₁ fs₁, .struct n₂ fs₂, h => by
      simp only [GoType.beq, Bool.and_eq_true, beq_iff_eq] at h
      rw [h.1, eqFieldList_of_beq h.2]

theorem structField_eq_of_beq : ∀ {a b : StructField}, a.beq b = true → a = b
  | .mk n₁ t₁ g₁, .mk n₂ t₂ g₂, h => by
      simp only [StructField.beq, Bool.and_eq_true, beq_iff_eq] at h
      rw [h.1.1, goType_eq_of_beq h.1.2, h.2]

theorem eqFieldList_of_beq : ∀ {a b : List StructField}, beqFieldList a b = true → a = b
  | [], [], _ => rfl
  | f :: fs, g :: gs, h => by
      simp only [beqFieldList, Bool.and_eq_true] at h
      rw [structField_eq_of_beq h.1, eqFieldList_of_beq h.2]
end

mutual
theorem goType_beq_refl : ∀ a : GoType, a.beq a = true
  | .string => rfl
  | .int64 => rfl
  | .float64 => rfl
  | .bool => rfl
  | .objectID => rfl
  | .ptr a => by simpa [GoType.beq] using goType_beq_refl a
  | .slice a => by simpa [GoType.beq] using goType_beq_refl a
  | .struct n fs => by simp [GoType.beq, fieldList_beq_refl fs]

theorem structField_beq_refl : ∀ a : StructField, a.beq a = true
  | .mk n t g => by simp [StructField.beq, goType_beq_refl t]

theorem fieldList_beq_refl : ∀ a : List StructField, beqFieldList a a = true
  | [] => rfl
  | f :: fs => by simp [beqFieldList, structField_beq_refl f, fieldList_beq_refl fs]
end

instance : DecidableEq GoType := fun a b =>
  decidable_of_iff (a.beq b = true)
    ⟨goType_eq_of_beq, fun h => h ▸ goType_beq_refl a⟩

instance : DecidableEq StructField := fun a b =>
  decidable_of_iff (a.beq b = true)
    ⟨structField_eq_of_beq, fun h => h ▸ structField_beq_refl a⟩

def StructField.name : StructField → String
  | .mk n _ _ => n

def StructField.type : StructField → GoType
  | .mk _ t _ => t

def StructField.tags : StructField → List (String × String)
  | .mk _ _ ts => ts

/-- `field.Tag.Get(key)`: the empty string when the tag is absent. -/
def tagGet (f : StructField) (key : String) : String :=
  (alookup f.tags key).getD ""

/-- `defType.Name()` (only struct definitions are named in this model). -/
def GoType.name : GoType → String
  | .struct n _ => n
  | _ => ""

/-- The fields of a struct type (`NumField`/`Field(i)` iteration). -/
def GoType.fields : GoType → List StructField
  | .struct _ fs => fs
  | _ => []

/-! Tag-name constants.  `jsonTag`/`bsonTag` are `eField.JSONTag`/`eField.BSONTag`
(`eField/fieldName.go`); `idTag`/`handleTag` are `eField.IDTag = "_id_"` and
`eField.HandleTag = "_hd_"`; `axisTag` is the `entity` package's
`AxisTag = "axis"` used by `Filter`. -/

def jsonTag : String := "json"

def bsonTag : String := "bson"

def idTag : String := "_id_"

def handleTag : String := "_hd_"

def axisTag : String := "axis"

/-- `eField.Priority`: the order of preference of field-name options. -/
structure Priority : Type where
  tags : List String

/-- `eField.PriorityJsonBson`: JSON tag, then BSON tag, then field name. -/
def PriorityJsonBson : Priority := ⟨[jsonTag, bsonTag]⟩

/-- `eField.PriorityBsonJson`: BSON tag, then JSON tag, then field name. -/
def PriorityBsonJson : Priority := ⟨[bsonTag, jsonTag]⟩

/-- The tag-scanning loop of `eField.NameByPriority`: the first tag in the
priority list whose value is neither empty nor "-" wins; when the tags are
exhausted the field's own name is returned. -/
def nameByPriorityAux (f : StructField) : List String → String
  | [] => f.name
  | t :: ts =>
    let tag := tagGet f t
    if tag ≠ "" ∧ tag ≠ "-" then tag else nameByPriorityAux f ts

/-- `eField.NameByPriority` (`eField/fieldName.go`). -/
def NameByPriority (f : StructField) (p : Priority) : String :=
  nameByPriorityAux f p.tags

/-- Go dynamic values (`interface\x7b\x7d`) as they occur in decoded JSON
payloads and entity instances.  `vFloat` carries an opaque integer token
standing for a `float64`; no modelled operation computes with float values,
they are only stored and matched.  `vNil` is the nil pointer (zero value of a
pointer field).  `vStruct` is a typed struct value (its `reflect.Type`
and its field values by field name). -/
inductive GoVal : Type where
  | vString (s : String) : GoVal
  | vInt (n : Int) : GoVal
  | vFloat (r : Int) : GoVal
  | vBool (b : Bool) : GoVal
  | vObjectID (bytes : List Nat) : GoVal
  | vNil : GoVal
  | vList (elems : List GoVal) : GoVal
  | vMap (entries : List (String × GoVal)) : GoVal
  | vStruct (type : GoType) (fields : List (String × GoVal)) : GoVal

/-- `primitive.NilObjectID`: twelve zero bytes. -/
def nilObjectID : GoVal := .vObjectID (List.replicate 12 0)

/-- The `reflect.Type` of a dynamic value, where expressible in the modelled
type universe (`vList`/`vMap` values are `[]interface\x7b\x7d` /
`map[string]interface\x7b\x7d`, which never equal a modelled field type, and a
nil interface has no type). -/
def goTypeOfVal : GoVal → Option GoType
  | .vString _ => some .string
  | .vInt _ => some .int64
  | .vFloat _ => some .float64
  | .vBool _ => some .bool
  | .vObjectID _ => some .objectID
  | .vStruct t _ => some t
  | .vNil => none
  | .vList _ => none
  | .vMap _ => none

mutual
/-- The zero `reflect.Value` of a Go type (`reflect.New(t).Elem()`). -/
def zeroVal : GoType → GoVal
  | .string => .vString ""
  | .int64 => .vInt 0
  | .float64 => .vFloat 0
  | .bool => .vBool false
  | .objectID => nilObjectID
  | .ptr _ => .vNil
  | .slice _ => .vList []
  | .struct n fs => .vStruct (.struct n fs) (zeroFields fs)

/-- Zero values of a struct's fields, keyed by field name. -/
def zeroFields : List StructField → List (String × GoVal)
  | [] => []
  | .mk n t _ :: fs => (n, zeroVal t) :: zeroFields fs
end

/-- The error values of the `entityErrors` package that the modelled code
returns (each constructor is one of the distinct `error` values). -/
inductive Err : Type where
  | dbUninitialized : Err
  | noTag (tag entity : String) : Err
  | duplicateTag (tag entity : String) : Err
  | incompleteEntityMetadata : Err
  | noClassificationFields : Err
  | invalidDataType : Err
  | writeToPtrField : Err
  | invalidEntityLink : Err
  | embeddedWriteDataInvalid : Err
deriving DecidableEq

/-- `eField.WriteToField` (final version, by-value `reflect.Value` argument
with an explicit `reflect.Ptr` case).  The Go function switches on the
field's kind; in each scalar case a type assertion (`data.(string)`, etc.)
panics on mismatch and the deferred `recover` converts the panic into
`entityErrors.InvalidDataType`; the panic fires before any write, so on error
no value is produced.  The `default` branch (`field.Set(reflect.ValueOf(data))`)
panics — hence errors — unless the dynamic type of `data` equals the field
type.  A pointer-kind field returns `entityErrors.WriteToPtrField` without
writing.  The result is the value written to the field on success. -/
def WriteToField (fieldType : GoType) (data : GoVal) : Except Err GoVal :=
  match fieldType with
  | .string =>
    match data with
    | .vString s => .ok (.vString s)
    | _ => .error .invalidDataType
  | .int64 =>
    match data with
    | .vInt n => .ok (.vInt n)
    | _ => .error .invalidDataType
  | .float64 =>
    match data with
    | .vFloat r => .ok (.vFloat r)
    | _ => .error .invalidDataType
  | .bool =>
    match data with
    | .vBool b => .ok (.vBool b)
    | _ => .error .invalidDataType
  | .ptr _ => .error .writeToPtrField
  | t =>
    if goTypeOfVal data = some t then .ok data else .error .invalidDataType

/-- `eField.CheckEmbedding`: returns `(cFlag, sFlag, embeddedType)` — a slice
field is a collection embedding of its element type, a struct field is a
singleton embedding of its own type. -/
def CheckEmbedding (f : StructField) : Bool × Bool × Option GoType :=
  match f.type with
  | .slice e => (true, false, some e)
  | .struct n fs => (false, true, some (.struct n fs))
  | _ => (false, false, none)

/-! ## The multiplexer registry (`multiplexer/multiplexer.go`, `metaEntity.go`) -/

/-- The `Embedding` descriptor of a `condensedField` (per
`multiplexer/README.md`): collection/singleton flags, the embedded type, and
— after linking — a reference to the embedded entity's `metaEntity`.  The Go
`Meta` pointer into the registry is modelled by the registry key (the
`EntityID` of the referenced entity). -/
structure Embedding : Type where
  cFlag : Bool
  sFlag : Bool
  embeddedType : Option GoType
  meta : Option String
deriving DecidableEq

/-- `condensedField` (final version in `multiplexer/multiplexer.go` and
`multiplexer/README.md`). -/
structure CondF : Type where
  name : String
  type : GoType
  requestID : String
  value : String
  embedded : Embedding
deriving DecidableEq

/-- `entity.Entity` as the multiplexer builds it: the schema type and the
persistent-storage collection handle (`nil` — `none` — when collection
creation is suppressed).  The collection handle is modelled by the collection
name passed to `db.Collection`. -/
structure GoEntity : Type where
  schemaDefinition : GoType
  pstorage : Option String

/-- `metaEntity`: the compiled metadata registered for one entity.  The Go
`map[rune][]*condensedField` is modelled as a total function from tokens to
field lists (a missing key of a Go map reads as the empty slice). -/
structure MetaEntity : Type where
  entity : GoEntity
  entityID : String
  fieldClassifications : Char → List CondF

/-- `EntityIDToken rune = '*'`. -/
def EntityIDToken : Char := '*'

/-- `AxisFieldToken rune = 'a'`. -/
def AxisFieldToken : Char := 'a'

/-- `CreationFieldsToken rune = 'c'`. -/
def CreationFieldsToken : Char := 'c'

/-- `HandleTokens = []rune\x7bCreationFieldsToken, AxisFieldToken\x7d`. -/
def HandleTokens : List Char := [CreationFieldsToken, AxisFieldToken]

/-- The `condensedField` built for a struct field inside `classifyHandleTags`.
The `Name`, `Type` and `RequestID` assignments are from
`multiplexer/metaEntity.go`.  Modelled from the spec: the population of the
embedding descriptor from the field's type is absent from the available
sources (only its shape in `multiplexer/README.md` and the helper
`eField.CheckEmbedding` survive), so the descriptor is filled with
`CheckEmbedding`'s flags and type, with no metadata reference yet. -/
def mkCondF (field : StructField) : CondF :=
  let ce := CheckEmbedding field
  { name := field.name
    type := field.type
    requestID := NameByPriority field PriorityJsonBson
    value := ""
    embedded := { cFlag := ce.1, sFlag := ce.2.1, embeddedType := ce.2.2, meta := none } }

/-- The body of the `for _, tok := range HandleTokens` loop of
`classifyHandleTags`: build a fresh `condensedField`; if the field has a
usable `_id_` tag, set the field's `Value` to it and reset the `'*'` class to
contain exactly this field (so the last `_id_`-tagged field wins); if the
`_hd_` tag contains the token, append the field to that token's class. -/
def classifyTok (field : StructField) (classes : Char → List CondF) (tok : Char) :
    Char → List CondF :=
  let idVal := tagGet field idTag
  let newField :=
    if idVal ≠ "" ∧ idVal ≠ "-" then { mkCondF field with value := idVal } else mkCondF field
  let classes1 :=
    if idVal ≠ "" ∧ idVal ≠ "-" then
      fun t => if t = EntityIDToken then [newField] else classes t
    else classes
  if (tagGet field handleTag).data.contains tok then
    fun t => if t = tok then classes1 t ++ [newField] else classes1 t
  else classes1

/-- `classifyHandleTags` (`multiplexer/metaEntity.go`): classify one struct
field under every handle token. -/
def classifyHandleTags (field : StructField) (classes : Char → List CondF) :
    Char → List CondF :=
  HandleTokens.foldl (classifyTok field) classes

/-- `classifyFields` (`multiplexer/metaEntity.go`): iterate over the fields
of the definition type, classifying each. -/
def classifyFields (defType : GoType) : Char → List CondF :=
  defType.fields.foldl (fun cs f => classifyHandleTags f cs) (fun _ => [])

/-- The multiplexer: entity registry (`EntityMap`, keyed by `EntityID`) and
reverse type index (`TypeMap`).  Both Go maps are modelled as association
lists whose keys are distinct by construction (`Create` refuses duplicates). -/
structure EMux : Type where
  entities : List (String × MetaEntity)
  typeMap : List (GoType × String)

/-- One iteration of the definition loop of `Create`
(`multiplexer/multiplexer.go`): classify the definition's fields, extract the
collection name from the `'*'` class (error `NoTag` when absent or empty),
strip a leading `'!'` (suppressing collection creation), build the
`entity.Entity`, and register it unless the `EntityID` is already taken
(error `DuplicateTag` naming the definition type).  The ignored
`defEntity.Optimize()` call touches only the external store and has no
registry effect. -/
def createStep (mux : EMux) (defType : GoType) : Except Err EMux :=
  let fieldClassifications := classifyFields defType
  match fieldClassifications EntityIDToken with
  | [] => .error (.noTag idTag defType.name)
  | cf :: _ =>
    match cf.value.data with
    | [] => .error (.noTag idTag defType.name)
    | c :: rest =>
      let entityID : String := if c ≠ '!' then cf.value else ⟨rest⟩
      let createCollection : Bool := c ≠ '!'
      let defCollection : Option String := if createCollection then some entityID else none
      let defEntity : GoEntity := { schemaDefinition := defType, pstorage := defCollection }
      match alookup mux.entities entityID with
      | none =>
          .ok { entities := mux.entities ++
                  [(entityID,
                    { entity := defEntity
                      entityID := entityID
                      fieldClassifications := fieldClassifications })]
                typeMap := mux.typeMap ++ [(defType, entityID)] }
      | some _ => .error (.duplicateTag idTag defType.name)

/-- The definition loop of `Create`: thread the multiplexer state through the
definitions, stopping at the first error (the state reached so far is kept,
as in the Go loop, and returned alongside the error for specification
purposes; Go's `Create` then discards it by returning `nil`). -/
def createLoop (mux : EMux) : List GoType → EMux × Option Err
  | [] => (mux, none)
  | d :: ds =>
    match createStep mux d with
    | .ok mux' => createLoop mux' ds
    | .error e => (mux, some e)

/-- The linking of one creation-classified field (`EMux.link` loop body):
look up the embedded type (for collection/singleton embeddings) or the
field's own type in the reverse type map; an empty result leaves the field
unlinked, otherwise the field receives a reference to the registered
entity's metadata (modelled by its registry key). -/
def linkField (tm : List (GoType × String)) (cf : CondF) : CondF :=
  let embedID : String :=
    if cf.embedded.cFlag || cf.embedded.sFlag then
      match cf.embedded.embeddedType with
      | some t => (alookup tm t).getD ""
      | none => ""
    else (alookup tm cf.type).getD ""
  if embedID = "" then cf
  else { cf with embedded := { cf.embedded with meta := some embedID } }

/-- Linking of one registered entity: only the creation-classified fields are
linked (`fields := meta.FieldClassifications[CreationFieldsToken]`). -/
def linkMeta (tm : List (GoType × String)) (m : MetaEntity) : MetaEntity :=
  { m with fieldClassifications := fun tok =>
      if tok = CreationFieldsToken then
        (m.fieldClassifications CreationFieldsToken).map (linkField tm)
      else m.fieldClassifications tok }

/-- `EMux.link` (`multiplexer/multiplexer.go`): the post-registration pass
attaching embedded-entity references to every registered entity's creation
fields. -/
def link (mux : EMux) : EMux :=
  { mux with entities := mux.entities.map fun p => (p.1, linkMeta mux.typeMap p.2) }

/-- `multiplexer.Create` (`multiplexer/multiplexer.go`): a `nil` database
handle is `entityErrors.DBUninitialized`; otherwise the definitions are
registered in order and, after all have been registered, `link` runs.  The
database handle is modelled as `Option Unit`; the collection handle it
returns is modelled by the collection name. -/
def Create (db : Option Unit) (definitions : List GoType) : Except Err EMux :=
  match db with
  | none => .error .dbUninitialized
  | some _ =>
    match createLoop { entities := [], typeMap := [] } definitions with
    | (mux, none) => .ok (link mux)
    | (_, some e) => .error e

/-! ## The payload decoder (`EMux.processCreation`)

For decoding, the linked registry is viewed through the `Meta` pointers of
the creation fields: a `metaEntity` together with the metadata reachable
through its linked creation fields forms a tree (`MetaTree`).  This is the
faithful unfolding of the Go pointer structure for every acyclic registry;
on a cyclic registry the Go decoder would not terminate, so no claim
concerns that case. -/

mutual
/-- A `metaEntity` as seen by the decoder: its `EntityID`, its
`Entity.SchemaDefinition`, and its creation-classified fields. -/
inductive MetaTree : Type where
  | mk (entityID : String) (schema : GoType) (creationFields : List CondFT) : MetaTree

/-- A creation-classified `condensedField` as seen by the decoder: name,
type, request key, the embedding flags, and the linked embedded metadata
(`EmbeddedEntity.Meta`, `none` when unlinked). -/
inductive CondFT : Type where
  | mk (name : String) (type : GoType) (requestID : String)
       (cFlag sFlag : Bool) (meta : Option MetaTree) : CondFT
end

def MetaTree.schema : MetaTree → GoType
  | .mk _ s _ => s

def MetaTree.entityID : MetaTree → String
  | .mk i _ _ => i

def MetaTree.creationFields : MetaTree → List CondFT
  | .mk _ _ fs => fs

/-- The schema type of an optional metadata pointer.  Only reached when the
decoder has already decoded successfully through the pointer, which rules
out `none`; the `none` value is arbitrary. -/
def schemaOfOpt : Option MetaTree → GoType
  | some m => m.schema
  | none => .struct "" []

/-- Replace the value of a named field of an entity value (`FieldByName` +
`Set`); a name not present in the value is left untouched. -/
def updateField (ent : List (String × GoVal)) (name : String) (v : GoVal) :
    List (String × GoVal) :=
  ent.map fun p => if p.1 = name then (p.1, v) else p

/-- `reflect.Append(fieldToWrite, writePayload...)`: append to the field's
current collection value.  Only slice-kind fields reach this operation in
the decoder (on any other kind Go would panic unrecovered), so the non-list
case is left as the identity. -/
def goAppend : GoVal → List GoVal → GoVal
  | .vList l, new => .vList (l ++ new)
  | v, _ => v

mutual
/-- `EMux.processCreation` (`multiplexer/multiplexer.go`): decode a payload
against an entity's metadata.  A `nil` metadata pointer is
`entityErrors.InvalidEntityLink`; otherwise a zero value of the schema is
allocated and the creation fields are processed in order.  Returns the
(possibly partial) entity value and the error (`nil` — `none` — on
success), exactly as the Go function returns both. -/
def processCreation : Option MetaTree → List (String × GoVal) →
    List (String × GoVal) × Option Err
  | none, _ => ([], some .invalidEntityLink)
  | some (.mk _ schema cfields), payload =>
    procFields cfields payload (zeroFields schema.fields)
termination_by m _ => (sizeOf m, 0)

/-- The `for _, cf := range creationFields` loop of `processCreation`.  For
each creation field: a missing payload value skips the field; a collection
embedding (`CFlag`) requires a linked `Meta` (else `InvalidEntityLink`), a
sequence payload (else `EmbeddedWriteDataInvalid`), decodes every element
recursively (the first element error aborts, propagated unchanged) and
appends the results, in order, to the field's collection; a singleton
embedding (`SFlag`) requires a map payload (else `EmbeddedWriteDataInvalid`),
decodes it recursively (an inner error is masked as
`EmbeddedWriteDataInvalid`) and writes the decoded value through
`WriteToField`; otherwise the payload value is written through
`WriteToField`, whose error aborts the decode. -/
def procFields : List CondFT → List (String × GoVal) → List (String × GoVal) →
    List (String × GoVal) × Option Err
  | [], _, ent => (ent, none)
  | .mk nm ty rid cF sF mOpt :: rest, payload, ent =>
    match alookup payload rid with
    | none => procFields rest payload ent
    | some fieldData =>
      if cF then
        match mOpt with
        | none => (ent, some .invalidEntityLink)
        | some m' =>
          match fieldData with
          | .vList writeData =>
            match procList m' writeData with
            | .error e => (ent, some e)
            | .ok writePayload =>
              let cur := (alookup ent nm).getD (zeroVal ty)
              procFields rest payload (updateField ent nm (goAppend cur writePayload))
          | _ => (ent, some .embeddedWriteDataInvalid)
      else if sF then
        match fieldData with
        | .vMap writeData =>
          match processCreation mOpt writeData with
          | (_, some _) => (ent, some .embeddedWriteDataInvalid)
          | (embedVal, none) =>
            match WriteToField ty (.vStruct (schemaOfOpt mOpt) embedVal) with
            | .error e => (ent, some e)
            | .ok v => procFields rest payload (updateField ent nm v)
        | _ => (ent, some .embeddedWriteDataInvalid)
      else
        match WriteToField ty fieldData with
        | .error e => (ent, some e)
        | .ok v => procFields rest payload (updateField ent nm v)
termination_by cfs _ _ => (sizeOf cfs, 0)

/-- The element loop of the collection-embedding branch: each element must be
a map (else `EmbeddedWriteDataInvalid`); each is decoded recursively against
the embedded metadata, errors aborting at the first failing element; the
decoded struct values are collected in input order. -/
def procList : MetaTree → List GoVal → Except Err (List GoVal)
  | _, [] => .ok []
  | m', x :: xs =>
    match x with
    | .vMap mp =>
      match processCreation (some m') mp with
      | (_, some e) => .error e
      | (v, none) =>
        match procList m' xs with
        | .error e => .error e
        | .ok vs => .ok (.vStruct m'.schema v :: vs)
    | _ => .error .embeddedWriteDataInvalid
termination_by m xs => (sizeOf m + 2, xs.length)
end

/-! ## The axis filter (`entity.Filter`) -/

/-- Go's `filterValue != primitive.NilObjectID` on an `interface\x7b\x7d`
value: only an `ObjectID` of twelve zero bytes equals `NilObjectID`; a value
of any other dynamic type is unequal. -/
def isNilObjectID : GoVal → Bool
  | .vObjectID bs => bs = List.replicate 12 0
  | _ => false

/-- Go's `filterValue != ""` on an `interface\x7b\x7d` value: only the string
`""` equals `""`; a value of any other dynamic type (including a zero `int`)
is unequal. -/
def isEmptyStringVal : GoVal → Bool
  | .vString s => s = ""
  | _ => false

/-- `entity.Filter` (final version): scan the entity value's fields in
declaration order; a field whose BSON tag is `"_id"` with value unequal to
`primitive.NilObjectID` yields the primary-key filter; otherwise a field
whose axis tag is `"true"` with value unequal to `""` yields a filter keyed
by `NameByPriority(field, PriorityBsonJson)`; if no field matches, `nil`
(`none`) is returned.  The entity value is the list of (struct field,
current value) pairs in declaration order; the singleton `bson.M` result is
modelled as the key/value pair. -/
def Filter : List (StructField × GoVal) → Option (String × GoVal)
  | [] => none
  | (field, filterValue) :: rest =>
    if tagGet field bsonTag = "_id" ∧ isNilObjectID filterValue = false then
      some ("_id", filterValue)
    else if tagGet field axisTag = "true" ∧ isEmptyStringVal filterValue = false then
      some (NameByPriority field PriorityBsonJson, filterValue)
    else Filter rest

/-! ## Specification-level helpers (derived notions used to state theorems) -/

/-- A field has a usable identity annotation: its `_id_` tag value is neither
empty nor `"-"` (the condition of `classifyHandleTags`). -/
def hasIdTag (f : StructField) : Bool :=
  decide (tagGet f idTag ≠ "" ∧ tagGet f idTag ≠ "-")

/-- The `condensedField` that `classifyHandleTags` places in the `'*'` class
for an identity-annotated field. -/
def idCondF (f : StructField) : CondF :=
  { mkCondF f with value := tagGet f idTag }

/-- The entity identifier `Create` resolves for a definition: the `'*'`
classification's value with a leading `'!'` stripped; `none` when the
classification is absent or empty (the `NoTag` failure). -/
def resolveID (T : GoType) : Option String :=
  match classifyFields T EntityIDToken with
  | [] => none
  | cf :: _ =>
    match cf.value.data with
    | [] => none
    | c :: rest => some (if c ≠ '!' then cf.value else ⟨rest⟩)

/-- The storage handle `Create` attaches for a definition: the collection
named by the resolved identifier, or `none` when the identity value starts
with `'!'`. -/
def pstorageOf (T : GoType) : Option String :=
  match classifyFields T EntityIDToken with
  | [] => none
  | cf :: _ =>
    match cf.value.data with
    | [] => none
    | c :: _ => if c ≠ '!' then some cf.value else none

/-- The `metaEntity` that `Create` registers for a definition (before the
linking pass). -/
def metaOf (T : GoType) : MetaEntity :=
  { entity := { schemaDefinition := T, pstorage := pstorageOf T }
    entityID := (resolveID T).getD ""
    fieldClassifications := classifyFields T }

/-- The type-map lookup `EMux.link` performs for a creation field: the
embedded type for collection/singleton embeddings, the field's own type
otherwise. -/
def embedTargetID (tm : List (GoType × String)) (cf : CondF) : Option String :=
  if cf.embedded.cFlag || cf.embedded.sFlag then
    match cf.embedded.embeddedType with
    | some t => alookup tm t
    | none => none
  else alookup tm cf.type

/-- A multiplexer is well linked: every creation-classified field of every
registered entity whose (element) type resolves in the reverse type map to a
non-empty identifier carries a reference to that identifier's metadata, and
that metadata is registered. -/
def WellLinked (mux : EMux) : Prop :=
  ∀ id m, alookup mux.entities id = some m →
    ∀ cf ∈ m.fieldClassifications CreationFieldsToken, ∀ eid,
      embedTargetID mux.typeMap cf = some eid → eid ≠ "" →
      cf.embedded.meta = some eid ∧
        ∃ m', alookup mux.entities eid = some m' ∧ m'.entityID = eid

/-- The entries of a map-shaped payload element (used to state what the
decoder produced for each collection element). -/
def GoVal.mapEntries : GoVal → List (String × GoVal)
  | .vMap mp => mp
  | _ => []

/-- The value the decoder produces for one (map-shaped) element of an
embedded collection: the recursively decoded struct value of the embedded
entity's schema. -/
def elemDecode (m' : MetaTree) (x : GoVal) : GoVal :=
  .vStruct m'.schema (processCreation (some m') x.mapEntries).1

/-- A field/value pair that `Filter` passes over: it fails both the
primary-key test and the axis test. -/
def filterSkips (f : StructField) (v : GoVal) : Prop :=
  ¬(tagGet f bsonTag = "_id" ∧ isNilObjectID v = false) ∧
  ¬(tagGet f axisTag = "true" ∧ isEmptyStringVal v = false)

/-- Request-key resolution as the specification words it: the primary (JSON)
annotation if present, else the secondary (BSON) annotation if present, else
the field's own name; an annotation is present when its value is neither
empty nor `"-"`. -/
def specRequestKey (f : StructField) : String :=
  if tagGet f jsonTag ≠ "" ∧ tagGet f jsonTag ≠ "-" then tagGet f jsonTag
  else if tagGet f bsonTag ≠ "" ∧ tagGet f bsonTag ≠ "-" then tagGet f bsonTag
  else f.name

/-- The identifier `Create` registers a definition under (`""` only when
registration of that definition would fail). -/
def idOf (T : GoType) : String :=
  (resolveID T).getD ""

/-! ## Theorems -/

theorem alookup_eq_none {α β : Type} [DecidableEq α] (l : List (α × β)) (k : α) :
    alookup l k = none ↔ k ∉ l.map Prod.fst := by
  induction l with
  | nil => simp
  | cons hd tl ih =>
    obtain ⟨a, b⟩ := hd
    by_cases h : a = k
    · subst h
      simp [alookup]
    · simp only [alookup, if_neg h, List.map_cons, List.mem_cons, ih, not_or]
      exact ⟨fun hk => ⟨fun he => h he.symm, hk⟩, fun hk => hk.2⟩

theorem alookup_mem {α β : Type} [DecidableEq α] {l : List (α × β)} {k : α} {v : β}
    (h : alookup l k = some v) : (k, v) ∈ l := by
  induction l with
  | nil => cases h
  | cons hd tl ih =>
    obtain ⟨a, b⟩ := hd
    by_cases ha : a = k
    · subst ha
      simp [alookup] at h
      subst h
      exact List.mem_cons_self _ _
    · simp [alookup, ha] at h
      exact List.mem_cons_of_mem _ (ih h)

theorem alookup_isSome_of_mem {α β : Type} [DecidableEq α] {l : List (α × β)} {k : α}
    (h : k ∈ l.map Prod.fst) : ∃ v, alookup l k = some v := by
  induction l with
  | nil => simp at h
  | cons hd tl ih =>
    obtain ⟨a, b⟩ := hd
    by_cases ha : a = k
    · exact ⟨b, by simp [alookup, ha]⟩
    · simp only [List.map_cons, List.mem_cons] at h
      have hk : k ∈ tl.map Prod.fst := by
        rcases h with he | hm
        · exact absurd he.symm ha
        · exact hm
      obtain ⟨v, hv⟩ := ih hk
      exact ⟨v, by simp [alookup, ha, hv]⟩

theorem alookup_map_value {α β γ : Type} [DecidableEq α] (g : β → γ)
    (l : List (α × β)) (k : α) :
    alookup (l.map fun p => (p.1, g p.2)) k = (alookup l k).map g := by
  induction l with
  | nil => rfl
  | cons hd tl ih =>
    obtain ⟨a, b⟩ := hd
    by_cases h : a = k <;> simp [alookup, h, ih]

theorem alookup_perm {α β : Type} [DecidableEq α] {l₁ l₂ : List (α × β)}
    (p : l₁.Perm l₂) (nd : (l₁.map Prod.fst).Nodup) (k : α) :
    alookup l₁ k = alookup l₂ k := by
  induction p with
  | nil => rfl
  | cons x p ih =>
    obtain ⟨a, b⟩ := x
    simp only [List.map_cons, List.nodup_cons] at nd
    by_cases h : a = k <;> simp [alookup, h, ih nd.2]
  | swap x y l =>
    obtain ⟨a, b⟩ := x
    obtain ⟨c, d⟩ := y
    simp only [List.map_cons, List.nodup_cons, List.mem_cons] at nd
    have hac : c ≠ a := fun h => nd.1 (Or.inl h)
    by_cases hc : c = k
    · subst hc
      have hca : ¬a = c := fun h => hac h.symm
      simp [alookup, hca]
    · by_cases ha : a = k <;> simp [alookup, ha, hc]
  | trans p₁ p₂ ih₁ ih₂ =>
    have nd₂ := ((p₁.map Prod.fst).nodup_iff).mp nd
    rw [ih₁ nd, ih₂ nd₂]

theorem getLast?_cons_getD {α : Type} (a : α) (l : List α) :
    (a :: l).getLast? = some (l.getLast?.getD a) := by
  induction l generalizing a with
  | nil => rfl
  | cons b t ih =>
    rw [List.getLast?_cons_cons, ih b]
    simp

theorem classifyHandleTags_star (f : StructField) (classes : Char → List CondF) :
    classifyHandleTags f classes EntityIDToken =
      if hasIdTag f then [idCondF f] else classes EntityIDToken := by
  by_cases h : tagGet f idTag ≠ "" ∧ tagGet f idTag ≠ "-" <;>
    by_cases hc : 'c' ∈ (tagGet f handleTag).data <;>
    by_cases ha : 'a' ∈ (tagGet f handleTag).data <;>
    simp [classifyHandleTags, HandleTokens, classifyTok, h, hc, ha, hasIdTag, idCondF,
      EntityIDToken, CreationFieldsToken, AxisFieldToken]

theorem classifyFields_star_foldl (fs : List StructField) (classes : Char → List CondF) :
    (fs.foldl (fun cs f => classifyHandleTags f cs) classes) EntityIDToken =
      match (fs.filter hasIdTag).getLast? with
      | none => classes EntityIDToken
      | some f => [idCondF f] := by
  induction fs generalizing classes with
  | nil => rfl
  | cons g gs ih =>
    rw [List.foldl_cons, ih]
    by_cases hg : hasIdTag g
    · rw [List.filter_cons_of_pos hg, getLast?_cons_getD]
      cases hlast : (gs.filter hasIdTag).getLast? with
      | none =>
        simp only [hlast, Option.getD_none]
        rw [classifyHandleTags_star, if_pos hg]
      | some f => simp [hlast]
    · rw [List.filter_cons_of_neg (by simpa using hg)]
      cases hlast : (gs.filter hasIdTag).getLast? with
      | none =>
        simp only [hlast]
        rw [classifyHandleTags_star, if_neg hg]
      | some f => simp [hlast]

/-- The `'*'` classification holds exactly the condensed field of the last
identity-annotated struct field (or nothing, when no field carries a usable
identity annotation). -/
theorem classifyFields_star (n : String) (fs : List StructField) :
    classifyFields (.struct n fs) EntityIDToken =
      match (fs.filter hasIdTag).getLast? with
      | none => []
      | some f => [idCondF f] :=
  classifyFields_star_foldl fs _

/-- `createStep` in terms of the resolved identifier and compiled metadata. -/
theorem createStep_eq (mux : EMux) (T : GoType) :
    createStep mux T =
      match resolveID T with
      | none => .error (.noTag idTag T.name)
      | some id =>
        match alookup mux.entities id with
        | none => .ok { entities := mux.entities ++ [(id, metaOf T)]
                        typeMap := mux.typeMap ++ [(T, id)] }
        | some _ => .error (.duplicateTag idTag T.name) := by
  cases hc : classifyFields T EntityIDToken with
  | nil => simp [createStep, resolveID, metaOf, pstorageOf, hc]
  | cons cf rest =>
    cases hv : cf.value.data with
    | nil => simp [createStep, resolveID, metaOf, pstorageOf, hc, hv]
    | cons c cs =>
      by_cases hbang : c ≠ '!'
      · cases hl : alookup mux.entities cf.value <;>
          simp [createStep, resolveID, metaOf, pstorageOf, hc, hv, hbang, hl]
      · cases hl : alookup mux.entities (String.mk cs) <;>
          simp [createStep, resolveID, metaOf, pstorageOf, hc, hv, hbang, hl]

theorem createLoop_append (mux mux1 : EMux) (l1 l2 : List GoType)
    (h : createLoop mux l1 = (mux1, none)) :
    createLoop mux (l1 ++ l2) = createLoop mux1 l2 := by
  induction l1 generalizing mux with
  | nil =>
    simp only [createLoop] at h
    cases h
    rfl
  | cons d ds ih =>
    simp only [createLoop, List.cons_append] at h ⊢
    cases hs : createStep mux d with
    | ok mux' =>
      rw [hs] at h
      exact ih mux' h
    | error e =>
      rw [hs] at h
      cases h

theorem mem_of_getLast?_eq {α : Type} {l : List α} {a : α}
    (h : l.getLast? = some a) : a ∈ l := by
  induction l with
  | nil => cases h
  | cons b t ih =>
    rw [getLast?_cons_getD] at h
    cases ht : t.getLast? with
    | none =>
      rw [ht] at h
      simp only [Option.getD_none, Option.some.injEq] at h
      subst h
      exact List.mem_cons_self _ _
    | some c =>
      rw [ht] at h
      simp only [Option.getD_some, Option.some.injEq] at h
      subst h
      exact List.mem_cons_of_mem _ (ih ht)

/-- C3: For every record type carrying more than one identity-annotated
field with a usable value, field classification keeps only the identity value
of the last such field in declaration order (each later `_id_` annotation
resets the `'*'` class), and the entity identifier `Create` registers the
definition under is that last field's value (stated for values without the
`'!'` suppression marker, which per C5 would be stripped). -/
theorem identity_last_wins
    (n : String) (fs : List StructField) (f : StructField) (v : String)
    (_hcount : 2 ≤ (fs.filter hasIdTag).length)
    (hlast : (fs.filter hasIdTag).getLast? = some f)
    (hv : tagGet f idTag = v)
    (hmark : v.data.head? ≠ some '!') :
    classifyFields (.struct n fs) EntityIDToken = [idCondF f] ∧
    ∃ mux m, Create (some ()) [.struct n fs] = .ok mux ∧
      alookup mux.entities v = some m ∧ m.entityID = v := by
  have hstar : classifyFields (.struct n fs) EntityIDToken = [idCondF f] := by
    rw [classifyFields_star]
    simp [hlast]
  have hfid : hasIdTag f = true := (List.mem_filter.mp (mem_of_getLast?_eq hlast)).2
  have hvne : v ≠ "" := by
    rw [← hv]
    exact (of_decide_eq_true hfid).1
  have hres : resolveID (.struct n fs) = some v := by
    unfold resolveID
    rw [hstar]
    cases hd : v.data with
    | nil =>
      exact absurd (String.ext hd) hvne
    | cons c cs =>
      have hc : c ≠ '!' := fun he => hmark (by rw [hd, he]; rfl)
      simp [idCondF, mkCondF, hv, hd, hc]
  have hstep : createStep { entities := [], typeMap := [] } (.struct n fs) =
      .ok { entities := [(v, metaOf (.struct n fs))],
            typeMap := [(.struct n fs, v)] } := by
    rw [createStep_eq, hres]
    rfl
  refine ⟨hstar,
    link { entities := [(v, metaOf (.struct n fs))], typeMap := [(.struct n fs, v)] },
    linkMeta [(.struct n fs, v)] (metaOf (.struct n fs)), ?_, ?_, ?_⟩
  · simp [Create, createLoop, hstep]
  · simp [link, alookup]
  · simp [linkMeta, metaOf, hres]

/-- Test fixture: a definition with two identity-annotated fields (the test
type `ENoDupID3` of the repository's multiplexer tests). -/
def eNoDup3Fields : List StructField :=
  [.mk "F1" .int64 [(jsonTag, "f_1"), (bsonTag, "f1"), (idTag, "<id>")],
   .mk "F2" .int64 [(jsonTag, "f_2"), (bsonTag, "f2"), (idTag, "<new_id>")]]

/-- Witness for C3 at the two-identity-field fixture: the later `_id_` value
`"<new_id>"` wins. -/
theorem identity_last_wins_witness :
    classifyFields (.struct "ENoDupID3" eNoDup3Fields) EntityIDToken =
      [idCondF (.mk "F2" .int64 [(jsonTag, "f_2"), (bsonTag, "f2"), (idTag, "<new_id>")])] ∧
    ∃ mux m, Create (some ()) [.struct "ENoDupID3" eNoDup3Fields] = .ok mux ∧
      alookup mux.entities "<new_id>" = some m ∧ m.entityID = "<new_id>" :=
  identity_last_wins "ENoDupID3" eNoDup3Fields
    (.mk "F2" .int64 [(jsonTag, "f_2"), (bsonTag, "f2"), (idTag, "<new_id>")])
    "<new_id>" (by decide) (by decide) rfl (by decide)

/-- C5: For every definition whose resolved identity value begins with the
suppression marker `'!'`, `Create` registers the entity's metadata under the
identifier with the marker stripped (the `'!'` is not part of the entity
identifier — the marked value itself is not a registry key), and no
persistent-store collection handle is attached for that entity. -/
theorem suppression_marker
    (T : GoType) (cf : CondF) (rest : List CondF) (s : String)
    (hstar : classifyFields T EntityIDToken = cf :: rest)
    (hval : cf.value = "!" ++ s) :
    ∃ mux m, Create (some ()) [T] = .ok mux ∧
      alookup mux.entities s = some m ∧ m.entityID = s ∧
      m.entity.pstorage = none ∧ alookup mux.entities cf.value = none := by
  have hdata : cf.value.data = '!' :: s.data := by
    rw [hval]
    rfl
  have hres : resolveID T = some s := by
    unfold resolveID
    rw [hstar]
    simp only [hdata]
    cases s with
    | mk d => rfl
  have hps : pstorageOf T = none := by
    unfold pstorageOf
    rw [hstar]
    simp [hdata]
  have hstep : createStep { entities := [], typeMap := [] } T =
      .ok { entities := [(s, metaOf T)], typeMap := [(T, s)] } := by
    rw [createStep_eq, hres]
    rfl
  have hne : ¬s = cf.value := by
    rw [hval]
    intro h
    have hlen := congrArg (fun t : String => t.data.length) h
    simp at hlen
  refine ⟨link { entities := [(s, metaOf T)], typeMap := [(T, s)] },
    linkMeta [(T, s)] (metaOf T), ?_, ?_, ?_, ?_, ?_⟩
  · simp [Create, createLoop, hstep]
  · simp [link, alookup]
  · simp [linkMeta, metaOf, hres]
  · simp [linkMeta, metaOf, hps]
  · simp [link, alookup, hne]

/-- Test fixture: the `ENoDBColl` test type — its identity value carries the
`'!'` suppression marker. -/
def eNoCollDef : GoType :=
  .struct "ENoDBColl" [.mk "F1" .int64 [(jsonTag, "f1"), (idTag, "!no-coll")]]

/-- Witness for C5 at the `ENoDBColl` fixture: the entity is registered under
`"no-coll"` with no storage handle. -/
theorem suppression_marker_witness :
    ∃ mux m, Create (some ()) [eNoCollDef] = .ok mux ∧
      alookup mux.entities "no-coll" = some m ∧ m.entityID = "no-coll" ∧
      m.entity.pstorage = none ∧
      alookup mux.entities
        (idCondF (.mk "F1" .int64 [(jsonTag, "f1"), (idTag, "!no-coll")])).value = none :=
  suppression_marker eNoCollDef
    (idCondF (.mk "F1" .int64 [(jsonTag, "f1"), (idTag, "!no-coll")])) [] "no-coll"
    (by decide) rfl

theorem createLoop_ok_iff (ds : List GoType) (mux : EMux)
    (hK : (mux.entities.map Prod.fst).Nodup) :
    (createLoop mux ds).2 = none ↔
      (∀ d ∈ ds, resolveID d ≠ none) ∧ (ds.map idOf).Nodup ∧
      ∀ d ∈ ds, idOf d ∉ mux.entities.map Prod.fst := by
  induction ds generalizing mux with
  | nil => simp [createLoop]
  | cons d rest ih =>
    cases hr : resolveID d with
    | none =>
      have hstep : createStep mux d = .error (.noTag idTag d.name) := by
        rw [createStep_eq, hr]
      simp only [createLoop, hstep]
      constructor
      · intro h
        cases h
      · rintro ⟨hall, -, -⟩
        exact absurd hr (hall d (List.mem_cons_self _ _))
    | some i =>
      cases hl : alookup mux.entities i with
      | some m =>
        have hstep : createStep mux d = .error (.duplicateTag idTag d.name) := by
          rw [createStep_eq, hr]
          simp [hl]
        have hmem : i ∈ mux.entities.map Prod.fst :=
          List.mem_map.mpr ⟨(i, m), alookup_mem hl, rfl⟩
        simp only [createLoop, hstep]
        constructor
        · intro h
          cases h
        · rintro ⟨-, -, hnk⟩
          refine absurd hmem ?_
          have := hnk d (List.mem_cons_self _ _)
          simpa [idOf, hr] using this
      | none =>
        have hstep : createStep mux d =
            .ok { entities := mux.entities ++ [(i, metaOf d)]
                  typeMap := mux.typeMap ++ [(d, i)] } := by
          rw [createStep_eq, hr]
          simp [hl]
        have hid : idOf d = i := by simp [idOf, hr]
        have hinotin : i ∉ mux.entities.map Prod.fst := (alookup_eq_none _ _).mp hl
        have hK' : (((mux.entities ++ [(i, metaOf d)]).map Prod.fst)).Nodup := by
          rw [List.map_append]
          refine List.Nodup.append hK (by simp) ?_
          intro a ha
          simp only [List.map_cons, List.map_nil, List.mem_singleton]
          intro hai
          subst hai
          exact hinotin ha
        have hrec := ih { entities := mux.entities ++ [(i, metaOf d)]
                          typeMap := mux.typeMap ++ [(d, i)] } hK'
        simp only [createLoop, hstep]
        rw [hrec]
        simp only [List.map_append, List.map_cons, List.map_nil, List.mem_append,
          List.mem_singleton, List.mem_cons, List.nodup_cons]
        constructor
        · rintro ⟨hall, hnd, hnk⟩
          refine ⟨?_, ⟨?_, hnd⟩, ?_⟩
          · rintro d' (rfl | hd')
            · rw [hr]
              exact fun h => Option.noConfusion h
            · exact hall d' hd'
          · rw [hid]
            intro hmem
            obtain ⟨d', hd', he⟩ := List.mem_map.mp hmem
            have := hnk d' hd'
            rw [he] at this
            exact this (Or.inr (Or.inl rfl))
          · rintro d' (rfl | hd')
            · rw [hid]
              exact hinotin
            · intro hmem
              exact (hnk d' hd') (Or.inl hmem)
        · rintro ⟨hall, ⟨hdnotin, hnd⟩, hnk⟩
          refine ⟨fun d' hd' => hall d' (Or.inr hd'), hnd, ?_⟩
          intro d' hd'
          rintro (hmem | hi | hi)
          · exact (hnk d' (Or.inr hd')) hmem
          · have hmm : idOf d ∈ List.map idOf rest := by
              rw [hid, ← hi]
              exact List.mem_map.mpr ⟨d', hd', rfl⟩
            exact hdnotin hmm
          · cases hi

theorem createLoop_ok_structure (ds : List GoType) (mux mux' : EMux)
    (h : createLoop mux ds = (mux', none)) :
    mux'.entities = mux.entities ++ ds.map (fun d => (idOf d, metaOf d)) ∧
    mux'.typeMap = mux.typeMap ++ ds.map (fun d => (d, idOf d)) := by
  induction ds generalizing mux with
  | nil =>
    simp only [createLoop] at h
    cases h
    simp
  | cons d rest ih =>
    simp only [createLoop] at h
    cases hs : createStep mux d with
    | error e =>
      rw [hs] at h
      simp at h
    | ok mE =>
      rw [hs] at h
      cases hr : resolveID d with
      | none =>
        have : createStep mux d = .error (.noTag idTag d.name) := by
          rw [createStep_eq, hr]
        rw [this] at hs
        cases hs
      | some i =>
        cases hl : alookup mux.entities i with
        | some m =>
          have : createStep mux d = .error (.duplicateTag idTag d.name) := by
            rw [createStep_eq, hr]
            simp [hl]
          rw [this] at hs
          cases hs
        | none =>
          have hsE : createStep mux d =
              .ok { entities := mux.entities ++ [(i, metaOf d)]
                    typeMap := mux.typeMap ++ [(d, i)] } := by
            rw [createStep_eq, hr]
            simp [hl]
          rw [hsE] at hs
          have hmE := (Except.ok.inj hs)
          subst hmE
          obtain ⟨h1, h2⟩ := ih _ h
          have hid : idOf d = i := by simp [idOf, hr]
          constructor
          · rw [h1]
            simp [hid, List.append_assoc]
          · rw [h2]
            simp [hid, List.append_assoc]

theorem linkField_congr (tm tm' : List (GoType × String))
    (h : ∀ t, alookup tm t = alookup tm' t) (cf : CondF) :
    linkField tm cf = linkField tm' cf := by
  cases hcs : cf.embedded.cFlag || cf.embedded.sFlag
  · simp [linkField, hcs, h cf.type]
  · cases he : cf.embedded.embeddedType <;> simp [linkField, hcs, he, h]

theorem linkMeta_congr (tm tm' : List (GoType × String))
    (h : ∀ t, alookup tm t = alookup tm' t) (m : MetaEntity) :
    linkMeta tm m = linkMeta tm' m := by
  unfold linkMeta
  congr 1
  funext tok
  by_cases ht : tok = CreationFieldsToken
  · simp only [ht, if_true]
    exact List.map_congr_left fun cf _ => linkField_congr tm tm' h cf
  · simp [ht]

theorem create_ok_inversion (ds : List GoType) (mux : EMux)
    (h : Create (some ()) ds = .ok mux) :
    ∃ mux₀, createLoop { entities := [], typeMap := [] } ds = (mux₀, none) ∧
      mux = link mux₀ := by
  unfold Create at h
  rcases hl : createLoop { entities := [], typeMap := [] } ds with ⟨mux₀, oe⟩
  rw [hl] at h
  cases oe with
  | none => exact ⟨mux₀, rfl, (Except.ok.inj h).symm⟩
  | some e => cases h

theorem embedTargetID_exists_key (tm : List (GoType × String)) (cf : CondF)
    (eid : String) (h : embedTargetID tm cf = some eid) :
    ∃ key, alookup tm key = some eid := by
  cases hcs : cf.embedded.cFlag || cf.embedded.sFlag
  · simp only [embedTargetID, hcs, Bool.false_eq_true, if_false] at h
    exact ⟨cf.type, h⟩
  · cases he : cf.embedded.embeddedType with
    | none => simp [embedTargetID, hcs, he] at h
    | some t =>
      simp only [embedTargetID, hcs, he, if_true] at h
      exact ⟨t, h⟩

theorem linkField_of_target (tm : List (GoType × String)) (cf : CondF)
    (eid : String) (h : embedTargetID tm cf = some eid) (hne : eid ≠ "") :
    linkField tm cf = { cf with embedded := { cf.embedded with meta := some eid } } := by
  cases hcs : cf.embedded.cFlag || cf.embedded.sFlag
  · simp only [embedTargetID, hcs, Bool.false_eq_true, if_false] at h
    simp [linkField, hcs, h, hne]
  · cases he : cf.embedded.embeddedType with
    | none => simp [embedTargetID, hcs, he] at h
    | some t =>
      simp only [embedTargetID, hcs, he, if_true] at h
      simp [linkField, hcs, he, h, hne]

theorem linkField_preserves (tm : List (GoType × String)) (cf : CondF) :
    (linkField tm cf).type = cf.type ∧
    (linkField tm cf).embedded.cFlag = cf.embedded.cFlag ∧
    (linkField tm cf).embedded.sFlag = cf.embedded.sFlag ∧
    (linkField tm cf).embedded.embeddedType = cf.embedded.embeddedType := by
  refine ⟨?_, ?_, ?_, ?_⟩ <;> (simp only [linkField]; repeat' split) <;> rfl

theorem embedTargetID_linkField (tm tm2 : List (GoType × String)) (cf : CondF) :
    embedTargetID tm2 (linkField tm cf) = embedTargetID tm2 cf := by
  obtain ⟨h1, h2, h3, h4⟩ := linkField_preserves tm cf
  unfold embedTargetID
  rw [h1, h2, h3, h4]

theorem create_wellLinked (ds : List GoType) (mux : EMux)
    (hok : Create (some ()) ds = .ok mux) : WellLinked mux := by
  obtain ⟨mux₀, hloop, rfl⟩ := create_ok_inversion ds mux hok
  obtain ⟨hent, htm⟩ := createLoop_ok_structure ds _ _ hloop
  simp only [List.nil_append] at hent htm
  intro id m hm cf hcf eid htarget hne
  have hlinkent : (link mux₀).entities =
      mux₀.entities.map fun p => (p.1, linkMeta mux₀.typeMap p.2) := rfl
  have hlinktm : (link mux₀).typeMap = mux₀.typeMap := rfl
  rw [hlinkent, alookup_map_value] at hm
  cases hl0 : alookup mux₀.entities id with
  | none =>
    rw [hl0] at hm
    cases hm
  | some m₀ =>
    rw [hl0] at hm
    have hm0 : m = linkMeta mux₀.typeMap m₀ := (Option.some.inj hm).symm
    subst hm0
    have hcf2 : cf ∈ (m₀.fieldClassifications CreationFieldsToken).map
        (linkField mux₀.typeMap) := by
      simpa [linkMeta] using hcf
    obtain ⟨cf₀, hcf₀, rfl⟩ := List.mem_map.mp hcf2
    rw [hlinktm, embedTargetID_linkField] at htarget
    constructor
    · rw [linkField_of_target _ _ _ htarget hne]
    · obtain ⟨key, hkey⟩ := embedTargetID_exists_key _ _ _ htarget
      have hmemtm := alookup_mem hkey
      rw [htm] at hmemtm
      obtain ⟨d, hd, hde⟩ := List.mem_map.mp hmemtm
      have hdid : idOf d = eid := congrArg Prod.snd hde
      have hkeys : eid ∈ mux₀.entities.map Prod.fst := by
        rw [hent, List.map_map]
        exact List.mem_map.mpr ⟨d, hd, by simpa using hdid⟩
      obtain ⟨m₀', hm₀'⟩ := alookup_isSome_of_mem hkeys
      have hmem' := alookup_mem hm₀'
      rw [hent] at hmem'
      obtain ⟨d', hd', hde'⟩ := List.mem_map.mp hmem'
      have h1 : idOf d' = eid := congrArg Prod.fst hde'
      have h2 : metaOf d' = m₀' := congrArg Prod.snd hde'
      refine ⟨linkMeta mux₀.typeMap m₀', ?_, ?_⟩
      · rw [hlinkent, alookup_map_value, hm₀']
        rfl
      · rw [show (linkMeta mux₀.typeMap m₀').entityID = m₀'.entityID from rfl, ← h2,
          show (metaOf d').entityID = idOf d' from rfl, h1]

theorem create_perm (ds ds' : List GoType) (mux : EMux)
    (hok : Create (some ()) ds = .ok mux) (hperm : ds.Perm ds') :
    ∃ mux', Create (some ()) ds' = .ok mux' ∧
      (∀ k, alookup mux'.entities k = alookup mux.entities k) ∧
      (∀ t, alookup mux'.typeMap t = alookup mux.typeMap t) := by
  obtain ⟨mux₀, hloop, rfl⟩ := create_ok_inversion ds mux hok
  have hsucc : (createLoop { entities := [], typeMap := [] } ds).2 = none := by rw [hloop]
  obtain ⟨hall, hnd, -⟩ :=
    (createLoop_ok_iff ds { entities := [], typeMap := [] } (by simp)).mp hsucc
  have hall' : ∀ d ∈ ds', resolveID d ≠ none := fun d hd => hall d (hperm.mem_iff.mpr hd)
  have hnd' : (ds'.map idOf).Nodup := ((hperm.map idOf).nodup_iff).mp hnd
  have hsucc' : (createLoop { entities := [], typeMap := [] } ds').2 = none :=
    (createLoop_ok_iff ds' { entities := [], typeMap := [] } (by simp)).mpr
      ⟨hall', hnd', by simp⟩
  rcases hl' : createLoop { entities := [], typeMap := [] } ds' with ⟨mux₀', oe'⟩
  have hoe : oe' = none := by
    rw [hl'] at hsucc'
    exact hsucc'
  subst hoe
  obtain ⟨hent', htm'⟩ := createLoop_ok_structure ds' _ _ hl'
  obtain ⟨hent, htm⟩ := createLoop_ok_structure ds _ _ hloop
  simp only [List.nil_append] at hent htm hent' htm'
  have hdsnd : ds.Nodup := List.Nodup.of_map idOf hnd
  have htmperm : (mux₀'.typeMap).Perm (mux₀.typeMap) := by
    rw [htm, htm']
    exact (hperm.map (fun d => (d, idOf d))).symm
  have htmnd : (mux₀'.typeMap.map Prod.fst).Nodup := by
    have h1 : List.map (Prod.fst ∘ fun d => (d, idOf d)) ds' = List.map id ds' :=
      List.map_congr_left fun d _ => rfl
    rw [htm', List.map_map, h1, List.map_id]
    exact (hperm.nodup_iff).mp hdsnd
  have htme : ∀ t, alookup mux₀'.typeMap t = alookup mux₀.typeMap t :=
    fun t => alookup_perm htmperm htmnd t
  refine ⟨link mux₀', ?_, ?_, ?_⟩
  · unfold Create
    rw [hl']
  · intro k
    rw [show (link mux₀').entities =
        mux₀'.entities.map (fun p => (p.1, linkMeta mux₀'.typeMap p.2)) from rfl]
    rw [show (link mux₀).entities =
        mux₀.entities.map (fun p => (p.1, linkMeta mux₀.typeMap p.2)) from rfl]
    rw [alookup_map_value, alookup_map_value]
    have hfun : linkMeta mux₀'.typeMap = linkMeta mux₀.typeMap :=
      funext (linkMeta_congr _ _ htme)
    rw [hfun]
    have hperment : (mux₀'.entities).Perm (mux₀.entities) := by
      rw [hent, hent']
      exact (hperm.map _).symm
    have hndk : (mux₀'.entities.map Prod.fst).Nodup := by
      have h2 : List.map (Prod.fst ∘ fun d => (idOf d, metaOf d)) ds' =
          List.map idOf ds' :=
        List.map_congr_left fun d _ => rfl
      rw [hent', List.map_map, h2]
      exact hnd'
    rw [alookup_perm hperment hndk k]
  · intro t
    exact htme t

/-- C7: The embedding-linker pass runs only after all definitions have been
registered, so linking is independent of registration order: whenever
`Create` succeeds on a list of definitions, the result is well linked
(every CREATE-classified field whose value type or collection element type
resolves in the reverse type map — including forward references to entities
registered later in the sequence — carries a reference to that entity's
registered metadata), and for any permutation of the definitions `Create`
also succeeds with a registry whose lookups agree entry for entry. -/
theorem linker_order_independent (ds ds' : List GoType) (mux : EMux)
    (hok : Create (some ()) ds = .ok mux) (hperm : ds.Perm ds') :
    WellLinked mux ∧
    ∃ mux', Create (some ()) ds' = .ok mux' ∧
      (∀ k, alookup mux'.entities k = alookup mux.entities k) ∧
      (∀ t, alookup mux'.typeMap t = alookup mux.typeMap t) ∧
      WellLinked mux' := by
  obtain ⟨mux', h1, h2, h3⟩ := create_perm ds ds' mux hok hperm
  exact ⟨create_wellLinked ds mux hok, mux', h1, h2, h3,
    create_wellLinked ds' mux' h1⟩

/-- Test fixture: the `Task` definition (identifier `"task"`). -/
def taskDef : GoType :=
  .struct "Task" [.mk "Name" .string [(jsonTag, "name"), (idTag, "task"), (handleTag, "c")]]

/-- Test fixture: the `UserEmbed` definition — its CREATE field `Tasks` has
the `Task` struct type, a forward reference when `UserEmbed` is registered
first. -/
def userEmbedDef : GoType :=
  .struct "UserEmbed"
    [.mk "Tasks" (.struct "Task" [.mk "Name" .string
        [(jsonTag, "name"), (idTag, "task"), (handleTag, "c")]])
      [(jsonTag, "tasks"), (idTag, "user-embed"), (handleTag, "c")]]

/-- Witness for C7: registering `UserEmbed` before `Task` (a forward
reference) succeeds and is well linked, and the swapped registration order
produces a registry with the same lookups. -/
theorem linker_order_independent_witness :
    WellLinked (link (createLoop { entities := [], typeMap := [] }
      [userEmbedDef, taskDef]).1) ∧
    ∃ mux', Create (some ()) [taskDef, userEmbedDef] = .ok mux' ∧
      (∀ k, alookup mux'.entities k =
        alookup (link (createLoop { entities := [], typeMap := [] }
          [userEmbedDef, taskDef]).1).entities k) ∧
      (∀ t, alookup mux'.typeMap t =
        alookup (link (createLoop { entities := [], typeMap := [] }
          [userEmbedDef, taskDef]).1).typeMap t) ∧
      WellLinked mux' :=
  linker_order_independent [userEmbedDef, taskDef] [taskDef, userEmbedDef]
    (link (createLoop { entities := [], typeMap := [] } [userEmbedDef, taskDef]).1)
    rfl (List.Perm.swap taskDef userEmbedDef [])

/-- C2: For every sequence of definitions in which a later definition
resolves to the identifier of an already-registered one, registration fails
with the "duplicate identifier" error naming the offending type; the
duplicate never overwrites the earlier entry — the loop state at the failure
is exactly the state before the offending definition, and the registry
retains the first successfully registered entry for that identifier. -/
theorem duplicate_identifier_rejected
    (ds1 ds2 : List GoType) (d2 : GoType) (mux1 : EMux) (id : String) (m : MetaEntity)
    (hloop : createLoop { entities := [], typeMap := [] } ds1 = (mux1, none))
    (hid : resolveID d2 = some id)
    (hreg : alookup mux1.entities id = some m) :
    Create (some ()) (ds1 ++ d2 :: ds2) = .error (.duplicateTag idTag d2.name) ∧
    (createLoop { entities := [], typeMap := [] } (ds1 ++ d2 :: ds2)).1 = mux1 ∧
    alookup (createLoop { entities := [], typeMap := [] }
      (ds1 ++ d2 :: ds2)).1.entities id = some m := by
  have hstep : createStep mux1 d2 = .error (.duplicateTag idTag d2.name) := by
    rw [createStep_eq, hid]
    simp [hreg]
  have hloop2 : createLoop { entities := [], typeMap := [] } (ds1 ++ d2 :: ds2) =
      (mux1, some (.duplicateTag idTag d2.name)) := by
    rw [createLoop_append _ _ _ _ hloop]
    simp [createLoop, hstep]
  refine ⟨?_, by rw [hloop2], by rw [hloop2]; exact hreg⟩
  simp [Create, hloop2]

/-- Test fixture: the `EDupID1` test type. -/
def eDup1Def : GoType :=
  .struct "EDupID1" [.mk "F1" .int64 [(jsonTag, "f_1"), (bsonTag, "f1"), (idTag, "<id>")]]

/-- Test fixture: the `EDupID2` test type — it resolves to the same
identifier `"<id>"` as `EDupID1`. -/
def eDup2Def : GoType :=
  .struct "EDupID2" [.mk "F2" .int64 [(jsonTag, "f_2"), (bsonTag, "f2"), (idTag, "<id>")]]

/-- Witness for C2 at the `EDupID1`/`EDupID2` fixtures. -/
theorem duplicate_identifier_rejected_witness :
    Create (some ()) [eDup1Def, eDup2Def] = .error (.duplicateTag idTag "EDupID2") ∧
    (createLoop { entities := [], typeMap := [] } [eDup1Def, eDup2Def]).1 =
      (createLoop { entities := [], typeMap := [] } [eDup1Def]).1 ∧
    alookup (createLoop { entities := [], typeMap := [] }
      [eDup1Def, eDup2Def]).1.entities "<id>" = some (metaOf eDup1Def) :=
  duplicate_identifier_rejected [eDup1Def] [] eDup2Def
    (createLoop { entities := [], typeMap := [] } [eDup1Def]).1 "<id>"
    (metaOf eDup1Def) rfl rfl rfl

/-- C6: Request-key resolution is total and deterministic: for every struct
field, `NameByPriority` with the JSON-then-BSON priority returns the primary
(JSON) annotation if present, otherwise the secondary (BSON) annotation if
present, otherwise the field's own name — and the result is always a
non-empty key (Go struct field names are non-empty, stated as the
hypothesis). -/
theorem requestKey_resolution_total (f : StructField) (hname : f.name ≠ "") :
    NameByPriority f PriorityJsonBson = specRequestKey f ∧
    NameByPriority f PriorityJsonBson ≠ "" := by
  have heq : NameByPriority f PriorityJsonBson = specRequestKey f := rfl
  refine ⟨heq, ?_⟩
  rw [heq]
  unfold specRequestKey
  split_ifs with h1 h2
  · exact h1.1
  · exact h2.1
  · exact hname

/-- Witness for C6 at a concrete field with only a BSON annotation. -/
theorem requestKey_resolution_total_witness :
    NameByPriority (.mk "F2" .int64 [(bsonTag, "f2")]) PriorityJsonBson =
        specRequestKey (.mk "F2" .int64 [(bsonTag, "f2")]) ∧
      NameByPriority (.mk "F2" .int64 [(bsonTag, "f2")]) PriorityJsonBson ≠ "" :=
  requestKey_resolution_total (.mk "F2" .int64 [(bsonTag, "f2")]) (by decide)

/-- C9 counterexample: `WriteToField` on a pointer-kind field returns the
distinct `WriteToPtrField` error, not the invalid-data-type error, so the
claim that it "returns either nil or the invalid-data-type error" is false
at this input. -/
theorem writeToField_ptr_counterexample :
    WriteToField (.ptr .int64) (.vInt 3) = .error .writeToPtrField ∧
    Err.writeToPtrField ≠ Err.invalidDataType := by
  exact ⟨rfl, by decide⟩

/-- C9 (amended): `WriteToField` is total at its interface: for every field
type and payload datum it returns a written value, the invalid-data-type
error (every internal panic from a kind/type mismatch is recovered and
converted to it), or — for pointer-kind fields only — the write-to-pointer
error; a pointer-kind field is never written (the panic or type assertion
fires before any write, so an error leaves the field unchanged). -/
theorem writeToField_total (t : GoType) (data : GoVal) :
    ((∃ v, WriteToField t data = .ok v) ∨
      WriteToField t data = .error .invalidDataType ∨
      WriteToField t data = .error .writeToPtrField) ∧
    (∀ e, t = .ptr e → WriteToField t data = .error .writeToPtrField) := by
  constructor
  · cases t <;> cases data <;>
      first
        | exact Or.inl ⟨_, rfl⟩
        | exact Or.inr (Or.inl rfl)
        | exact Or.inr (Or.inr rfl)
        | (simp only [WriteToField]
           split_ifs <;> simp)
  · rintro e rfl
    rfl

/-- Witness for C9 (amended) at a concrete pointer-kind field. -/
theorem writeToField_total_witness :
    WriteToField (.ptr .string) (.vBool true) = .error .writeToPtrField :=
  (writeToField_total (.ptr .string) (.vBool true)).2 .string rfl

/-- C8 counterexample: an entity whose only AXIS-annotated field is an
`int64` holding its zero value still produces a filter (the code compares
the value against the empty string, not against the field type's zero
value), so "for an entity with all axis-field values zero, Filter returns
undefined" is false at this input. -/
theorem filter_zero_axis_counterexample :
    (GoVal.vInt 0) = zeroVal .int64 ∧
    Filter [(.mk "F" .int64 [(axisTag, "true"), (bsonTag, "f")], .vInt 0)] =
      some ("f", .vInt 0) ∧
    Filter [(.mk "F" .int64 [(axisTag, "true"), (bsonTag, "f")], .vInt 0)] ≠ none := by
  have h : Filter [(.mk "F" .int64 [(axisTag, "true"), (bsonTag, "f")], .vInt 0)] =
      some ("f", .vInt 0) := rfl
  refine ⟨by simp [zeroVal], h, fun hn => ?_⟩
  rw [h] at hn
  cases hn

/-- `Filter` passes over every field/value pair that fails both of its
tests. -/
theorem filter_passes_skipped_fields (pre l : List (StructField × GoVal))
    (hpre : ∀ p ∈ pre, filterSkips p.1 p.2) :
    Filter (pre ++ l) = Filter l := by
  induction pre with
  | nil => rfl
  | cons hd tl ih =>
    obtain ⟨f, v⟩ := hd
    have hskip := hpre (f, v) (List.mem_cons_self _ _)
    simp only [List.cons_append, Filter, if_neg hskip.1, if_neg hskip.2]
    exact ih fun p hp => hpre p (List.mem_cons_of_mem _ hp)

/-- C8 (amended): `Filter` scans the fields in declaration order and stops
at the first field passing one of its two per-field tests: the primary-key
test (BSON key `"_id"` and value unequal to `NilObjectID`) yields the
primary-key filter; otherwise the axis test (axis annotation `"true"` and
value unequal to the empty string — not "non-zero": a zero-valued non-string
axis field still passes) yields a filter keyed by the BSON-then-JSON
resolved storage name; when every field fails both tests the filter is
undefined. -/
theorem filter_scan_characterization :
    (∀ pre f v rest, (∀ p ∈ pre, filterSkips p.1 p.2) →
      tagGet f bsonTag = "_id" → isNilObjectID v = false →
      Filter (pre ++ (f, v) :: rest) = some ("_id", v)) ∧
    (∀ pre f v rest, (∀ p ∈ pre, filterSkips p.1 p.2) →
      ¬(tagGet f bsonTag = "_id" ∧ isNilObjectID v = false) →
      tagGet f axisTag = "true" → isEmptyStringVal v = false →
      Filter (pre ++ (f, v) :: rest) =
        some (NameByPriority f PriorityBsonJson, v)) ∧
    (∀ l, (∀ p ∈ l, filterSkips p.1 p.2) → Filter l = none) := by
  refine ⟨?_, ?_, ?_⟩
  · intro pre f v rest hpre hid hnil
    rw [filter_passes_skipped_fields pre _ hpre]
    simp [Filter, hid, hnil]
  · intro pre f v rest hpre hnotid hax hne
    rw [filter_passes_skipped_fields pre _ hpre]
    simp [Filter, hnotid, hax, hne]
  · intro l hl
    induction l with
    | nil => rfl
    | cons hd tl ih =>
      obtain ⟨f, v⟩ := hd
      have hskip := hl (f, v) (List.mem_cons_self _ _)
      simp only [Filter, if_neg hskip.1, if_neg hskip.2]
      exact ih fun p hp => hl p (List.mem_cons_of_mem _ hp)

theorem procList_all_maps (m' : MetaTree) (xs : List GoVal)
    (h : ∀ x ∈ xs, (∃ mp, x = .vMap mp) ∧
      (processCreation (some m') x.mapEntries).2 = none) :
    procList m' xs = .ok (xs.map (elemDecode m')) := by
  induction xs with
  | nil => simp [procList]
  | cons x t ih =>
    obtain ⟨⟨mp, rfl⟩, hsnd⟩ := h x (List.mem_cons_self _ _)
    simp only [GoVal.mapEntries] at hsnd
    rcases hp : processCreation (some m') mp with ⟨v, e⟩
    rw [hp] at hsnd
    simp only at hsnd
    subst hsnd
    have ht := ih fun y hy => h y (List.mem_cons_of_mem _ hy)
    simp [procList, hp, ht, elemDecode, GoVal.mapEntries]

theorem procList_nonmap (m' : MetaTree) (xs1 xs2 : List GoVal) (x : GoVal)
    (h1 : ∀ y ∈ xs1, (∃ mp, y = .vMap mp) ∧
      (processCreation (some m') y.mapEntries).2 = none)
    (hx : ∀ mp, x ≠ .vMap mp) :
    procList m' (xs1 ++ x :: xs2) = .error .embeddedWriteDataInvalid := by
  induction xs1 with
  | nil =>
    cases x <;> simp [procList] <;> exact absurd rfl (hx _)
  | cons y t ih =>
    obtain ⟨⟨mp, rfl⟩, hsnd⟩ := h1 y (List.mem_cons_self _ _)
    simp only [GoVal.mapEntries] at hsnd
    rcases hp : processCreation (some m') mp with ⟨v, e⟩
    rw [hp] at hsnd
    simp only at hsnd
    subst hsnd
    have ht := ih fun z hz => h1 z (List.mem_cons_of_mem _ hz)
    simp [procList, hp, ht]

/-- C4: For a CREATE-classified field embedding a collection of a registered
(linked) entity, decoding requires the payload value to be a sequence of
maps: when every element is a map and recursively decodes without error, the
results are appended to the field's collection in input order, preserving
length, and the decode succeeds; when some element is not a map (all
elements before it decoding cleanly), decoding yields the
"invalid embedded payload" error and no partial collection is written to the
field — the field keeps its zero (empty) collection value. -/
theorem collection_embedding_decode
    (id : String) (schema : GoType) (nm rid : String) (ety : GoType)
    (m' : MetaTree) (payload : List (String × GoVal)) (xs : List GoVal)
    (hpay : alookup payload rid = some (.vList xs))
    (hzero : alookup (zeroFields schema.fields) nm = some (.vList [])) :
    ((∀ x ∈ xs, (∃ mp, x = .vMap mp) ∧
        (processCreation (some m') x.mapEntries).2 = none) →
      processCreation
          (some (.mk id schema [.mk nm (.slice ety) rid true false (some m')]))
          payload =
        (updateField (zeroFields schema.fields) nm
          (.vList (xs.map (elemDecode m'))), none) ∧
      (xs.map (elemDecode m')).length = xs.length) ∧
    (∀ xs1 x xs2, xs = xs1 ++ x :: xs2 →
      (∀ y ∈ xs1, (∃ mp, y = .vMap mp) ∧
        (processCreation (some m') y.mapEntries).2 = none) →
      (∀ mp, x ≠ .vMap mp) →
      processCreation
          (some (.mk id schema [.mk nm (.slice ety) rid true false (some m')]))
          payload =
        (zeroFields schema.fields, some .embeddedWriteDataInvalid)) := by
  constructor
  · intro hall
    have hlist := procList_all_maps m' xs hall
    constructor
    · simp [processCreation, procFields, hpay, hlist, hzero, goAppend]
    · exact List.length_map _ _
  · intro xs1 x xs2 hsplit h1 hx
    subst hsplit
    have hlist := procList_nonmap m' xs1 xs2 x h1 hx
    simp [processCreation, procFields, hpay, hlist]

/-- Test fixture: the schema of the embedded entity `B` of the
specification's collection example. -/
def bSchema : GoType :=
  .struct "B" [.mk "X" .float64 [(jsonTag, "x"), (handleTag, "c")]]

/-- Test fixture: metadata of `B` — one scalar CREATE field with request
key `"x"`. -/
def bMeta : MetaTree :=
  .mk "b" bSchema [.mk "X" .float64 "x" false false none]

/-- Test fixture: the schema of the embedding entity `A`, whose CREATE field
`Items` holds a collection of `B`. -/
def aSchema : GoType :=
  .struct "A" [.mk "Items" (.slice bSchema) [(jsonTag, "items"), (handleTag, "c")]]

/-- Test fixture: linked metadata of `A`. -/
def aMeta : MetaTree :=
  .mk "a" aSchema [.mk "Items" (.slice bSchema) "items" true false (some bMeta)]

/-- Test fixture: the specification's collection-example payload
`[\x7b"x": 1\x7d, \x7b"x": 2\x7d]` under the key `"items"`. -/
def itemsPayload : List GoVal :=
  [.vMap [("x", .vFloat 1)], .vMap [("x", .vFloat 2)]]

/-- Witness for C4 at the specification's collection example. -/
theorem collection_embedding_decode_witness :
    processCreation (some aMeta) [("items", .vList itemsPayload)] =
      (updateField (zeroFields aSchema.fields) "Items"
        (.vList (itemsPayload.map (elemDecode bMeta))), none) ∧
    (itemsPayload.map (elemDecode bMeta)).length = itemsPayload.length := by
  refine (collection_embedding_decode "a" aSchema "Items" "items" bSchema bMeta
    [("items", .vList itemsPayload)] itemsPayload rfl ?_).1 ?_
  · simp [aSchema, bSchema, zeroFields, zeroVal, alookup]
  · intro x hx
    simp only [itemsPayload, List.mem_cons, List.not_mem_nil, or_false] at hx
    rcases hx with rfl | rfl
    · exact ⟨⟨_, rfl⟩, by simp [GoVal.mapEntries, bMeta, bSchema, processCreation,
        procFields, zeroFields, zeroVal, alookup, WriteToField]⟩
    · exact ⟨⟨_, rfl⟩, by simp [GoVal.mapEntries, bMeta, bSchema, processCreation,
        procFields, zeroFields, zeroVal, alookup, WriteToField]⟩

/-- Test fixture: metadata of a `TestUser`-like entity with one scalar
CREATE-classified string field whose request key is `"name"`. -/
def userMeta : MetaTree :=
  .mk "user"
    (.struct "TestUser" [.mk "Name" .string [(jsonTag, "name"), (handleTag, "c")]])
    [.mk "Name" .string "name" false false none]

/-- C1 counterexample: decoding a payload whose `"name"` value is a number
into a string CREATE field returns the invalid-data-type error (the field
write failure is propagated as the decode's error, the final error is not
`nil`), refuting the claim that the decode still returns with a nil error. -/
theorem scalar_mismatch_propagates_counterexample :
    processCreation (some userMeta) [("name", .vInt 5)] =
      ([("Name", .vString "")], some .invalidDataType) ∧
    (processCreation (some userMeta) [("name", .vInt 5)]).2 ≠ none := by
  have h : processCreation (some userMeta) [("name", .vInt 5)] =
      ([("Name", .vString "")], some .invalidDataType) := by
    simp [userMeta, processCreation, procFields, zeroFields, zeroVal, alookup, WriteToField]
  refine ⟨h, fun hn => ?_⟩
  rw [h] at hn
  cases hn

/-- C1 (amended): when writing a scalar (non-embedded) CREATE-classified
field fails — in particular with the invalid-data-type error — the decode
aborts immediately: the error is propagated as the decode's error, the
failing field is left at its zero value and the remaining CREATE fields are
not decoded (the entity returned is the zero value of the schema). -/
theorem scalar_mismatch_aborts_decode
    (id : String) (schema : GoType) (nm rid : String) (ty : GoType)
    (mOpt : Option MetaTree) (rest : List CondFT)
    (payload : List (String × GoVal)) (data : GoVal) (e : Err)
    (hdata : alookup payload rid = some data)
    (hw : WriteToField ty data = .error e) :
    processCreation (some (.mk id schema (.mk nm ty rid false false mOpt :: rest)))
        payload =
      (zeroFields schema.fields, some e) := by
  simp [processCreation, procFields, hdata, hw]

/-- Witness for C1 (amended) at the concrete fixture and payload. -/
theorem scalar_mismatch_aborts_decode_witness :
    processCreation (some userMeta) [("name", .vInt 5)] =
      (zeroFields
        (GoType.struct "TestUser"
          [.mk "Name" .string [(jsonTag, "name"), (handleTag, "c")]]).fields,
        some .invalidDataType) := by
  show processCreation
      (some (.mk "user"
        (.struct "TestUser" [.mk "Name" .string [(jsonTag, "name"), (handleTag, "c")]])
        [.mk "Name" .string "name" false false none]))
      [("name", .vInt 5)] = _
  exact scalar_mismatch_aborts_decode "user" _ "Name" "name" .string none []
    [("name", .vInt 5)] (.vInt 5) .invalidDataType (by simp [alookup]) rfl

/-- Witness for C8 (amended): a single non-empty string-valued axis field
with storage key `"f"` produces the keyed filter, and the empty entity
produces no filter. -/
theorem filter_scan_characterization_witness :
    Filter [(.mk "F" .string [(axisTag, "true"), (bsonTag, "f")], .vString "x")] =
      some ("f", .vString "x") ∧
    Filter ([] : List (StructField × GoVal)) = none := by
  constructor
  · have h := filter_scan_characterization.2.1 []
      (.mk "F" .string [(axisTag, "true"), (bsonTag, "f")]) (.vString "x") []
      (by intro p hp; cases hp) (by decide) (by decide) (by decide)
    simpa using h
  · exact filter_scan_characterization.2.2 [] (by intro p hp; cases hp)

end EntityRepo
